import Mathlib

/-!
Shallow embedding of `src/merge_filter.py`, a podcast feed aggregator:
per-source keyword matching, recency windowing, run-wide deduplication by
canonical guid, descending sort by publish date, truncation.

External collaborators (the flexible date parser `dateutil.parser.parse`,
`hashlib.sha1(...).hexdigest()`, and HTTP fetch + feedparser) are modelled
as function parameters, bundled in `Ext`.  Python `None`-able fields are
`Option`; Python truthiness of string fields is modelled explicitly.
-/

namespace MergeFilter

/-- The ASCII whitespace stripped by Python `str.strip()`. -/
def isPySpace (c : Char) : Bool :=
  c = ' ' || c = '\t' || c = '\n' || c = '\r' || c = '\x0b' || c = '\x0c'

/-- Python `str.strip()`. -/
def pyStrip (s : String) : String :=
  String.mk (((s.toList.dropWhile isPySpace).reverse.dropWhile isPySpace).reverse)

/-- Python truthiness of an optional string field: `None` and `""` are falsy.
`truthyS o = some s` exactly when the field is present with a nonempty value. -/
def truthyS : Option String → Option String
  | some s => if s = "" then none else some s
  | none => none

/-- Python `a or d` for an optional string `a` and a default string `d`. -/
def pyOrStr : Option String → String → String
  | some s, d => if s = "" then d else s
  | none, d => d

/-- Truthiness test of an optional string (`None` and `""` falsy). -/
def otruthy : Option String → Bool
  | some s => s != ""
  | none => false

/-- Python `needle in hay` for strings: contiguous substring test. -/
def strIn (needle hay : String) : Bool :=
  decide (needle.toList <:+: hay.toList)

/-- Python `s.lower()` over code points (ASCII case mapping). -/
def sToLower (s : String) : String :=
  String.mk (s.toList.map Char.toLower)

/-- Python `s.startswith(pre)` over code points. -/
def sStartsWith (s pre : String) : Bool :=
  decide (pre.toList <+: s.toList)

/-- Python `s[n:]` over code points. -/
def sDrop (s : String) (n : Nat) : String :=
  String.mk (s.toList.drop n)

/-- Python `datetime`: `ts` is the instant in seconds (UTC instant for aware
values, wall clock for naive ones); `tz` is `some` of the UTC offset in
minutes when timezone-aware and `none` when naive. -/
structure PyDateTime where
  ts : Int
  tz : Option Int
deriving DecidableEq, Repr

/-- `datetime(1970, 1, 1, tzinfo=timezone.utc)`, the epoch sentinel. -/
def epochDT : PyDateTime := ⟨0, some 0⟩

/-- Python `<` on datetimes: comparing a naive and an aware datetime raises
`TypeError`, modelled as `.error ()`. -/
def pyLt (a b : PyDateTime) : Except Unit Bool :=
  match a.tz, b.tz with
  | some _, some _ => .ok (decide (a.ts < b.ts))
  | none, none => .ok (decide (a.ts < b.ts))
  | _, _ => .error ()

/-- A feedparser link record (keys `rel`, `type`, `href`). -/
structure LinkRec where
  rel : Option String := none
  type : Option String := none
  href : Option String := none
deriving DecidableEq, Repr

/-- A feedparser enclosure record (keys `href`, `url`, `type`). -/
structure EncRec where
  href : Option String := none
  url : Option String := none
  type : Option String := none
deriving DecidableEq, Repr

/-- A feedparser entry.  `content` holds the optional `value` of each content
record; the `*_parsed` fields are modelled as the instant (in seconds) encoded
by the pre-decomposed `time.struct_time` tuple, which is present iff the field
is present. -/
structure Entry where
  title : Option String := none
  link : Option String := none
  links : List LinkRec := []
  content : List (Option String) := []
  summary : Option String := none
  description : Option String := none
  enclosures : List EncRec := []
  id : Option String := none
  guid : Option String := none
  published : Option String := none
  updated : Option String := none
  created : Option String := none
  published_parsed : Option Int := none
  updated_parsed : Option Int := none
  created_parsed : Option Int := none
deriving DecidableEq, Repr

/-- The textual-field loop of `pick_date`: for each field in order, if truthy,
try the flexible parser `pd`; a successful parse returns, a failure falls
through to the next field. -/
def tryTextual (pd : String → Option PyDateTime) : List (Option String) → Option PyDateTime
  | [] => none
  | f :: rest =>
    match truthyS f with
    | some s =>
      match pd s with
      | some d => some d
      | none => tryTextual pd rest
    | none => tryTextual pd rest

/-- The `*_parsed` loop of `pick_date`: the first present pre-decomposed field
becomes `datetime(*e[k][:6], tzinfo=timezone.utc)`. -/
def tryParsed : List (Option Int) → Option PyDateTime
  | [] => none
  | some t :: _ => some ⟨t, some 0⟩
  | none :: rest => tryParsed rest

/-- `pick_date(e)`: textual fields `published`, `updated`, `created` first
(parsed with `pd`), then the `*_parsed` fields in the same order, else `None`. -/
def pick_date (pd : String → Option PyDateTime) (e : Entry) : Option PyDateTime :=
  match tryTextual pd [e.published, e.updated, e.created] with
  | some d => some d
  | none => tryParsed [e.published_parsed, e.updated_parsed, e.created_parsed]

/-- The truthy `value` of the first content record, if any
(`e.get("content") and len(e["content"]) and e["content"][0].get("value")`). -/
def contentValue (e : Entry) : Option String :=
  match e.content with
  | [] => none
  | v :: _ => truthyS v

/-- Scan to the first `>` and return the remainder after it. -/
def scanGt : List Char → Option (List Char)
  | [] => none
  | c :: rest => if c = '>' then some rest else scanGt rest

/-- Match the regex fragment `[^>]+>`: at least one non-`>` character, then `>`. -/
def tagEnd : List Char → Option (List Char)
  | [] => none
  | c :: rest => if c = '>' then none else scanGt rest

/-- Left-to-right scan of `re.sub("<[^>]+>", " ", s)`; fuel bounds recursion
and always suffices since every step consumes at least one character. -/
def stripTagsAux : Nat → List Char → List Char
  | 0, l => l
  | _ + 1, [] => []
  | fuel + 1, c :: rest =>
    if c = '<' then
      match tagEnd rest with
      | some r => ' ' :: stripTagsAux fuel r
      | none => c :: stripTagsAux fuel rest
    else c :: stripTagsAux fuel rest

/-- `re.sub("<[^>]+>", " ", s)`, the crude markup strip used by `matches`. -/
def stripTags (s : String) : String :=
  String.mk (stripTagsAux s.toList.length s.toList)

/-- Match `img` case-insensitively (the tail of the regex literal `<img`). -/
def imgOpen : List Char → Option (List Char)
  | c1 :: c2 :: c3 :: rest =>
    if c1.toLower = 'i' && c2.toLower = 'm' && c3.toLower = 'g' then some rest else none
  | _ => none

/-- Left-to-right scan of `re.sub(r"<img[^>]*>", "", s, flags=re.IGNORECASE)`. -/
def stripImgAux : Nat → List Char → List Char
  | 0, l => l
  | _ + 1, [] => []
  | fuel + 1, c :: rest =>
    if c = '<' then
      match imgOpen rest with
      | some afterImg =>
        match scanGt afterImg with
        | some r => stripImgAux fuel r
        | none => c :: stripImgAux fuel rest
      | none => c :: stripImgAux fuel rest
    else c :: stripImgAux fuel rest

/-- `re.sub(r"<img[^>]*>", "", s, flags=re.IGNORECASE)`. -/
def stripImg (s : String) : String :=
  String.mk (stripImgAux s.toList.length s.toList)

/-- `first_html(e)`: first content value, else summary, else description, else
`""`; then strip `<img ...>` tags and surrounding whitespace. -/
def first_html (e : Entry) : String :=
  let html :=
    match contentValue e with
    | some v => v
    | none =>
      match truthyS e.summary with
      | some s => s
      | none =>
        match truthyS e.description with
        | some d => d
        | none => ""
  pyStrip (stripImg html)

/-- `normalize_protocol(url)`: a protocol-relative URL gains `https:`. -/
def normalize_protocol (url : String) : String :=
  if url != "" && sStartsWith url "//" then "https:" ++ url else url

/-- `normalize_url(url)` over an optional string: `None` and `""` pass through. -/
def normalize_url : Option String → Option String
  | some url => some (if url != "" then normalize_protocol url else url)
  | none => none

/-- The loop body of `pick_link` over the entry's link records, carrying the
`best` accumulator; `all` is the full record list for the post-loop fallback. -/
def linkLoop (all : List LinkRec) : List LinkRec → Option String → Option String
  | [], best =>
    if otruthy best then best
    else
      match all with
      | [] => some ""
      | L :: _ => normalize_url L.href
  | L :: rest, best =>
    let rel := sToLower (L.rel.getD "")
    let typ := sToLower (L.type.getD "")
    let href := normalize_url L.href
    if rel = "alternate" && (strIn "text/html" typ || typ = "") then href
    else if !otruthy best && rel = "alternate" then linkLoop all rest href
    else linkLoop all rest best

/-- `pick_link(e)`: the direct `link` field when truthy, else the Atom
`rel=alternate` selection, else the first link record, else `""`.
`none` models a Python `None` result (an alternate record without `href`). -/
def pick_link (e : Entry) : Option String :=
  match truthyS e.link with
  | some l => normalize_url (some l)
  | none => linkLoop e.links e.links (some "")

/-- The enclosure loop of `pick_image_enclosure`. -/
def imgFromEnclosures : List EncRec → Option String
  | [] => none
  | en :: rest =>
    if sStartsWith (sToLower (en.type.getD "")) "image/"
    then normalize_url (some (pyOrStr en.href (pyOrStr en.url "")))
    else imgFromEnclosures rest

/-- The link-record loop of `pick_image_enclosure` (`rel=enclosure`, image type). -/
def imgFromLinks : List LinkRec → Option String
  | [] => none
  | L :: rest =>
    if sToLower (L.rel.getD "") = "enclosure" && sStartsWith (sToLower (L.type.getD "")) "image/"
    then normalize_url (some (pyOrStr L.href ""))
    else imgFromLinks rest

/-- `pick_image_enclosure(e)`: first image-typed enclosure record, else first
`rel=enclosure` link record with an image type, else `None`. -/
def pick_image_enclosure (e : Entry) : Option String :=
  match imgFromEnclosures e.enclosures with
  | some u => some u
  | none => imgFromLinks e.links

/-- `normalize_guid_value(val)`: strip, drop one leading case-insensitive
`urn:uuid:` prefix (the regex `^\s*urn:uuid:\s*`), strip again. -/
def normalize_guid_value : Option String → String
  | none => ""
  | some v =>
    if v = "" then ""
    else
      let s := pyStrip v
      pyStrip (if sStartsWith (sToLower s) "urn:uuid:" then sDrop s 9 else s)

/-- `guid_for(e)`: prefer a truthy `id` then `guid` field whose normalized
value is nonempty; otherwise `sha1(link + "||" + title).hexdigest()`, with the
digest function abstracted as `sha1Hex`. -/
def guid_for (sha1Hex : String → String) (e : Entry) : String :=
  let v1 := normalize_guid_value (truthyS e.id)
  if v1 != "" then v1
  else
    let v2 := normalize_guid_value (truthyS e.guid)
    if v2 != "" then v2
    else sha1Hex ((pyOrStr e.link "") ++ "||" ++ (pyOrStr e.title ""))

/-- The lowercased haystack built by `matches`: the title alone in title-only
mode, else the space-join of title, summary, description and the tag-stripped
first content value. -/
def matchHay (e : Entry) (tOnly : Bool) : String :=
  if tOnly then sToLower (pyOrStr e.title "")
  else
    let parts :=
      (match truthyS e.title with | some t => [t] | none => []) ++
      (match truthyS e.summary with | some s => [s] | none => []) ++
      (match truthyS e.description with | some d => [d] | none => []) ++
      (match contentValue e with | some v => [stripTags v] | none => [])
    sToLower (String.intercalate " " parts)

/-- `matches(e, terms, title_only)` (`matches` is a Lean keyword, hence the
name): `any(t.lower() in hay for t in terms)`. -/
def matchesEntry (e : Entry) (terms : List String) (tOnly : Bool) : Bool :=
  terms.any (fun t => strIn (sToLower t) (matchHay e tOnly))

/-- A source entry of `feeds.yaml`: `url` and `label` are accessed with
`src["url"]` / `src["label"]` (a missing key raises `KeyError`), the other
keys with `.get` and a default. -/
structure SrcConfig where
  url : Option String := none
  label : Option String := none
  matchTerms : Option (List String) := none
  take_image_enclosure : Option Bool := none
  title_only : Option Bool := none
deriving DecidableEq, Repr

/-- An item dict appended to `collected` by `main`. -/
structure Item where
  guid : String
  title : String
  link : String
  html : String
  pubDate : PyDateTime
  category : String
  image : Option String
deriving DecidableEq, Repr

/-- The external collaborators of `main`: the flexible date parser, the sha1
hex digest, and fetch-plus-parse (whose failure is caught and warns). -/
structure Ext where
  pd : String → Option PyDateTime
  sha1Hex : String → String
  fetchParse : String → Except Unit (List Entry)

/-- The uncaught exceptions `main` can raise per claim scope: `KeyError` from
a source dict missing `url`/`label`, `TypeError` from comparing a naive and
an aware datetime. -/
inductive RunError where
  | keyError
  | typeError
deriving DecidableEq, Repr

/-- `cutoff = datetime.now(timezone.utc) - timedelta(days=window_days)`,
with `nowTs` the run-start instant in seconds. -/
def cutoffFor (nowTs windowDays : Int) : PyDateTime :=
  ⟨nowTs - windowDays * 86400, some 0⟩

/-- `dt = pick_date(e) or datetime(1970, 1, 1, tzinfo=timezone.utc)`. -/
def entryDT (pd : String → Option PyDateTime) (e : Entry) : PyDateTime :=
  (pick_date pd e).getD epochDT

/-- The dict literal appended to `collected`
(`html = first_html(e) or ""` and `title = e.get("title") or ""` are
identities on the already-string values, kept via `pyOrStr`). -/
def mkItem (ext : Ext) (label : String) (takeImg : Bool) (e : Entry) : Item :=
  ⟨guid_for ext.sha1Hex e,
   pyOrStr e.title "",
   pyOrStr (pick_link e) "",
   pyOrStr (some (first_html e)) "",
   entryDT ext.pd e,
   label,
   if takeImg then pick_image_enclosure e else none⟩

/-- The per-entry state: `(seen, collected)`. -/
abbrev EState := List String × List Item

/-- The body of the inner `for e in feed.entries` loop: keyword match, then
window check (which may raise `TypeError`), then dedup, then append. -/
def processEntry (ext : Ext) (cutoff : PyDateTime) (label : String)
    (terms : List String) (takeImg tOnly : Bool) (st : EState) (e : Entry) :
    Except RunError EState :=
  if matchesEntry e terms tOnly = false then .ok st
  else
    match pyLt (entryDT ext.pd e) cutoff with
    | .error _ => .error .typeError
    | .ok true => .ok st
    | .ok false =>
      if guid_for ext.sha1Hex e ∈ st.1 then .ok st
      else .ok (st.1 ++ [guid_for ext.sha1Hex e], st.2 ++ [mkItem ext label takeImg e])

/-- The inner entry loop over a parsed feed. -/
def processEntryList (ext : Ext) (cutoff : PyDateTime) (label : String)
    (terms : List String) (takeImg tOnly : Bool) :
    List Entry → EState → Except RunError EState
  | [], st => .ok st
  | e :: rest, st =>
    match processEntry ext cutoff label terms takeImg tOnly st e with
    | .error err => .error err
    | .ok st' => processEntryList ext cutoff label terms takeImg tOnly rest st'

/-- The run-wide state of `main`: the dedup set, the collection, and (as an
explicit trace of the fetch side effect) the URLs passed to `fetch`. -/
structure RunState where
  seen : List String
  collected : List Item
  fetched : List String
deriving DecidableEq, Repr

/-- The state at the start of the source loop. -/
def initState : RunState := ⟨[], [], []⟩

/-- The body of the `for src in cfg.get("sources", [])` loop: key accesses
(`KeyError` aborts before this source's fetch), fetch+parse (failure warns and
skips the source), then the entry loop. -/
def processSource (ext : Ext) (cutoff : PyDateTime) (st : RunState)
    (src : SrcConfig) : RunState × Option RunError :=
  match src.url with
  | none => (st, some .keyError)
  | some url =>
    match src.label with
    | none => (st, some .keyError)
    | some label =>
      let terms := src.matchTerms.getD []
      let takeImg := src.take_image_enclosure.getD false
      let tOnly := src.title_only.getD false
      let st1 : RunState := ⟨st.seen, st.collected, st.fetched ++ [url]⟩
      match ext.fetchParse url with
      | .error _ => (st1, none)
      | .ok entries =>
        match processEntryList ext cutoff label terms takeImg tOnly entries
            (st1.seen, st1.collected) with
        | .error err => (st1, some err)
        | .ok (seen', coll') => (⟨seen', coll', st1.fetched⟩, none)

/-- The source loop; an uncaught exception aborts the run, carrying the state
reached so far. -/
def processSources (ext : Ext) (cutoff : PyDateTime) :
    List SrcConfig → RunState → RunState × Option RunError
  | [], st => (st, none)
  | src :: rest, st =>
    match processSource ext cutoff st src with
    | (st', some err) => (st', some err)
    | (st', none) => processSources ext cutoff rest st'

/-- The whole collection phase of `main`. -/
def runResult (ext : Ext) (nowTs windowDays : Int) (sources : List SrcConfig) :
    RunState × Option RunError :=
  processSources ext (cutoffFor nowTs windowDays) sources initState

/-- The run collection, when the run does not raise. -/
def collectedOf (ext : Ext) (nowTs windowDays : Int) (sources : List SrcConfig) :
    Option (List Item) :=
  match runResult ext nowTs windowDays sources with
  | (st, none) => some st.collected
  | (_, some _) => none

/-- `collected.sort(key=lambda x: x["pubDate"], reverse=True)`: a stable
descending sort; aware datetimes compare by instant. -/
def sortDesc (l : List Item) : List Item :=
  l.mergeSort (fun a b => decide (b.pubDate.ts ≤ a.pubDate.ts))

/-- `if max_items: collected = collected[:max_items]`. -/
def truncateItems (maxItems : Nat) (l : List Item) : List Item :=
  if maxItems ≠ 0 then l.take maxItems else l

/-- The ordered output sequence of `main` (the run collection sorted and
truncated), when the run does not raise. -/
def finalItems (ext : Ext) (nowTs windowDays : Int) (maxItems : Nat)
    (sources : List SrcConfig) : Option (List Item) :=
  (collectedOf ext nowTs windowDays sources).map
    (fun c => truncateItems maxItems (sortDesc c))

/-! Spec-side definitions, written from the specification's words, to be
compared with the definitions embedded from the source. -/

/-- Date selection as the specification words it: take the first successful
parse over the truthy textual fields `published`, `updated`, `created` in that
order; only if all textual fields fail or are absent, take the first present
pre-decomposed field in the same order, interpreted as UTC. -/
def pickDateSpec (pd : String → Option PyDateTime) (e : Entry) : Option PyDateTime :=
  match (([e.published, e.updated, e.created].filterMap truthyS).filterMap pd).head? with
  | some d => some d
  | none =>
    match ([e.published_parsed, e.updated_parsed, e.created_parsed].filterMap
        (fun t => t)).head? with
    | some t => some ⟨t, some 0⟩
    | none => none

/-- Identifier normalization as the specification words it: strip surrounding
whitespace and a leading case-insensitive `urn:uuid:` prefix. -/
def specStrip (s : String) : String :=
  let s1 := pyStrip s
  pyStrip (if sStartsWith (sToLower s1) "urn:uuid:" then sDrop s1 9 else s1)

/-- The canonical identifier as the specification words it: an `id` or `guid`
field that is nonempty after stripping wins (in that order); otherwise the
digest of link and title joined by `||`. -/
def guidSpec (sha1Hex : String → String) (e : Entry) : String :=
  if specStrip (e.id.getD "") ≠ "" then specStrip (e.id.getD "")
  else if specStrip (e.guid.getD "") ≠ "" then specStrip (e.guid.getD "")
  else sha1Hex ((e.link.getD "") ++ "||" ++ (e.title.getD ""))

/-! Concrete objects shared by witnesses and counterexamples. -/

/-- A stand-in for `hashlib.sha1(...).hexdigest()` with the correct fixed
width, used to instantiate hypotheses in witnesses. -/
def sha40 : String → String := fun _ => "0123456789abcdef0123456789abcdef01234567"

/-- The spec scenario entry: no identifier, link `https://x/y`, title `T`. -/
def eHashExample : Entry := { link := some "https://x/y", title := some "T" }

/-- The spec scenario entry: identifier `urn:uuid:1234-5678`. -/
def eUrnExample : Entry := { id := some "urn:uuid:1234-5678" }

/-- The spec scenario entry: an enclosure with a protocol-relative href. -/
def eImgExample : Entry :=
  { enclosures := [{ href := some "//cdn.example.com/img.jpg", type := some "image/jpeg" }] }

/-! Theorems. -/

/-- C5: the matcher returns true exactly when some configured term is a
case-insensitive substring of the haystack (lowered term against the lowered
haystack `matchHay`); in title-only mode the haystack is the title alone; an
empty term list never matches. -/
theorem matcher_ci_substring_semantics (e : Entry) (terms : List String) (tOnly : Bool) :
    (matchesEntry e terms tOnly = true ↔
      ∃ t ∈ terms, (sToLower t).toList <:+: (matchHay e tOnly).toList) ∧
    matchHay e true = sToLower (pyOrStr e.title "") ∧
    matchesEntry e [] tOnly = false := by
  refine ⟨?_, rfl, rfl⟩
  simp [matchesEntry, strIn, List.any_eq_true]

/-- C10: a term list containing the empty string matches every entry, since
the empty string is a substring of every haystack. -/
theorem empty_term_matches_everything (e : Entry) (terms : List String) (tOnly : Bool)
    (h : "" ∈ terms) : matchesEntry e terms tOnly = true := by
  simp only [matchesEntry, List.any_eq_true]
  refine ⟨"", h, ?_⟩
  have h0 : (sToLower "").toList = [] := rfl
  simp only [strIn, h0]
  exact decide_eq_true List.nil_infix

/-- Witness for C10 at a concrete entry and term list. -/
theorem empty_term_matches_everything_witness :
    matchesEntry {} [""] false = true :=
  empty_term_matches_everything {} [""] false (by simp)

/-- The textual loop of `pick_date` returns the first successful parse of a
truthy textual field, in field order. -/
theorem tryTextual_eq_head (pd : String → Option PyDateTime) :
    ∀ l : List (Option String),
      tryTextual pd l = ((l.filterMap truthyS).filterMap pd).head?
  | [] => rfl
  | f :: rest => by
    cases h : truthyS f with
    | none => simp [tryTextual, h, tryTextual_eq_head pd rest]
    | some s =>
      cases hp : pd s with
      | none => simp [tryTextual, h, hp, tryTextual_eq_head pd rest]
      | some d => simp [tryTextual, h, hp]

/-- The decomposed-field loop of `pick_date` returns the first present field,
interpreted as UTC. -/
theorem tryParsed_eq_head :
    ∀ l : List (Option Int),
      tryParsed l = ((l.filterMap (fun t => t)).head?).map (fun t => (⟨t, some 0⟩ : PyDateTime))
  | [] => rfl
  | some t :: rest => by simp [tryParsed]
  | none :: rest => by simp [tryParsed, tryParsed_eq_head rest]

/-- C8: date selection tries the textual fields `published`, `updated`,
`created` in order with the flexible parser, falling through on parse
failure; only when all textual fields fail or are absent does it fall back to
the pre-decomposed fields in the same order, interpreted as UTC. -/
theorem date_selection_priority (pd : String → Option PyDateTime) (e : Entry) :
    pick_date pd e = pickDateSpec pd e := by
  unfold pick_date pickDateSpec
  rw [tryTextual_eq_head, tryParsed_eq_head]
  cases (([e.published, e.updated, e.created].filterMap truthyS).filterMap pd).head? with
  | none =>
    cases ([e.published_parsed, e.updated_parsed, e.created_parsed].filterMap
        (fun t => t)).head? with
    | none => rfl
    | some t => rfl
  | some d => rfl

/-- `x or ""` agrees with `getD ""` on optional strings. -/
theorem pyOrStr_empty (o : Option String) : pyOrStr o "" = o.getD "" := by
  cases o with
  | none => rfl
  | some s =>
    by_cases h : s = ""
    · simp [pyOrStr, h]
    · simp [pyOrStr, h]

/-- `normalize_guid_value` over a truthiness-filtered field agrees with the
spec-side `specStrip` of the field's value. -/
theorem normalize_guid_eq_specStrip (o : Option String) :
    normalize_guid_value (truthyS o) = specStrip (o.getD "") := by
  cases o with
  | none => rfl
  | some s =>
    by_cases h : s = ""
    · subst h; rfl
    · simp [truthyS, h, normalize_guid_value, specStrip]

/-- C4: the canonical identifier agrees with the spec's description, is never
empty (given the digest's fixed width 40), and on the no-identifier example
hashes exactly `https://x/y||T`. -/
theorem guid_canonical_nonempty (sha1Hex : String → String)
    (hlen : ∀ s, (sha1Hex s).length = 40) (e : Entry) :
    guid_for sha1Hex e = guidSpec sha1Hex e ∧
    guid_for sha1Hex e ≠ "" ∧
    guid_for sha1Hex eHashExample = sha1Hex "https://x/y||T" := by
  refine ⟨?_, ?_, rfl⟩
  · unfold guid_for guidSpec
    rw [normalize_guid_eq_specStrip, normalize_guid_eq_specStrip,
      pyOrStr_empty, pyOrStr_empty]
    by_cases h1 : specStrip (e.id.getD "") = ""
    · by_cases h2 : specStrip (e.guid.getD "") = "" <;> simp [h1, h2]
    · simp [h1]
  · unfold guid_for
    by_cases h1 : normalize_guid_value (truthyS e.id) = ""
    · by_cases h2 : normalize_guid_value (truthyS e.guid) = ""
      · simp only [h1, h2, bne_self_eq_false, Bool.false_eq_true, if_false]
        intro hguid
        have hl := hlen ((pyOrStr e.link "") ++ "||" ++ (pyOrStr e.title ""))
        rw [hguid] at hl
        have h0 : ("" : String).length = 0 := rfl
        omega
      · simp [h1, h2]
    · simp [h1]

/-- Witness for C4 at the fixed-width stand-in digest and the
`urn:uuid:1234-5678` scenario entry. -/
theorem guid_canonical_nonempty_witness :
    guid_for sha40 eUrnExample = guidSpec sha40 eUrnExample ∧
    guid_for sha40 eUrnExample ≠ "" ∧
    guid_for sha40 eHashExample = sha40 "https://x/y||T" :=
  guid_canonical_nonempty sha40 (fun _ => rfl) eUrnExample

/-- The enclosure loop finds an image-typed enclosure record exactly when one
is present. -/
theorem imgFromEnclosures_isSome : ∀ l : List EncRec,
    (imgFromEnclosures l).isSome = true ↔
      ∃ en ∈ l, sStartsWith (sToLower (en.type.getD "")) "image/" = true
  | [] => by simp [imgFromEnclosures]
  | en :: rest => by
    by_cases h : sStartsWith (sToLower (en.type.getD "")) "image/" = true
    · simp [imgFromEnclosures, h, normalize_url]
    · simp [imgFromEnclosures, h, imgFromEnclosures_isSome rest]

/-- The link-record loop finds an image-typed `rel=enclosure` record exactly
when one is present. -/
theorem imgFromLinks_isSome : ∀ l : List LinkRec,
    (imgFromLinks l).isSome = true ↔
      ∃ L ∈ l, sToLower (L.rel.getD "") = "enclosure" ∧
        sStartsWith (sToLower (L.type.getD "")) "image/" = true
  | [] => by simp [imgFromLinks]
  | L :: rest => by
    by_cases h : sToLower (L.rel.getD "") = "enclosure" ∧
        sStartsWith (sToLower (L.type.getD "")) "image/" = true
    · simp [imgFromLinks, h.1, h.2, normalize_url]
    · rw [Decidable.not_and_iff_or_not] at h
      rcases h with h | h
      · simp only [imgFromLinks]
        rw [if_neg (by simp [h])]
        simp [imgFromLinks_isSome rest, h]
      · simp only [imgFromLinks]
        rw [if_neg (by simp [h])]
        simp only [imgFromLinks_isSome rest, List.mem_cons]
        constructor
        · rintro ⟨x, hx, hx2⟩; exact ⟨x, Or.inr hx, hx2⟩
        · rintro ⟨x, hx | hx, hx2⟩
          · subst hx; exact absurd hx2.2 (by simpa using h)
          · exact ⟨x, hx, hx2⟩

/-- C9: an item carries an image URL only when the source opted in (items
built with the flag off have no image) and the entry carries an image-typed
attachment (enclosure record, else `rel=enclosure` link record); the selected
URL is protocol-normalized, as on the `//cdn.example.com/img.jpg` scenario. -/
theorem image_requires_opt_in_and_attachment :
    (∀ e : Entry, (pick_image_enclosure e).isSome = true ↔
      ((∃ en ∈ e.enclosures, sStartsWith (sToLower (en.type.getD "")) "image/" = true) ∨
       (∃ L ∈ e.links, sToLower (L.rel.getD "") = "enclosure" ∧
          sStartsWith (sToLower (L.type.getD "")) "image/" = true))) ∧
    (∀ (ext : Ext) (label : String) (e : Entry), (mkItem ext label false e).image = none) ∧
    pick_image_enclosure eImgExample = some "https://cdn.example.com/img.jpg" := by
  refine ⟨?_, fun ext label e => rfl, rfl⟩
  intro e
  unfold pick_image_enclosure
  cases h : imgFromEnclosures e.enclosures with
  | some u =>
    have : (imgFromEnclosures e.enclosures).isSome = true := by rw [h]; rfl
    rw [imgFromEnclosures_isSome] at this
    simp [this]
  | none =>
    have : ¬ (imgFromEnclosures e.enclosures).isSome = true := by rw [h]; simp
    rw [imgFromEnclosures_isSome] at this
    simp [imgFromLinks_isSome, this]

/-! Run-level infrastructure lemmas. -/

/-- Characterization of a successful entry step: the entry was dropped (state
unchanged) or it passed match, window and dedup and was appended. -/
theorem processEntry_ok_cases (ext : Ext) (cutoff : PyDateTime) (label : String)
    (terms : List String) (takeImg tOnly : Bool) (st st' : EState) (e : Entry)
    (h : processEntry ext cutoff label terms takeImg tOnly st e = .ok st') :
    st' = st ∨
    (matchesEntry e terms tOnly = true ∧
     pyLt (entryDT ext.pd e) cutoff = .ok false ∧
     guid_for ext.sha1Hex e ∉ st.1 ∧
     st' = (st.1 ++ [guid_for ext.sha1Hex e], st.2 ++ [mkItem ext label takeImg e])) := by
  unfold processEntry at h
  split at h
  · exact Or.inl (Except.ok.inj h).symm
  next hm =>
    have hm' : matchesEntry e terms tOnly = true := by
      revert hm; cases matchesEntry e terms tOnly <;> simp
    split at h
    · cases h
    · exact Or.inl (Except.ok.inj h).symm
    next hlt =>
      split at h
      · exact Or.inl (Except.ok.inj h).symm
      next hg =>
        exact Or.inr ⟨hm', hlt, hg, (Except.ok.inj h).symm⟩

/-- The run-wide invariant: the dedup set mirrors the collected guids in
order, collected guids are distinct, and every collected item passed the
window comparison. -/
def StateInv (cutoff : PyDateTime) (st : EState) : Prop :=
  st.1 = st.2.map (fun it => it.guid) ∧
  (st.2.map (fun it => it.guid)).Nodup ∧
  ∀ it ∈ st.2, pyLt it.pubDate cutoff = .ok false

/-- One entry step preserves the run-wide invariant. -/
theorem processEntry_inv (ext : Ext) (cutoff : PyDateTime) (label : String)
    (terms : List String) (takeImg tOnly : Bool) (st st' : EState) (e : Entry)
    (h : processEntry ext cutoff label terms takeImg tOnly st e = .ok st')
    (hinv : StateInv cutoff st) : StateInv cutoff st' := by
  rcases processEntry_ok_cases ext cutoff label terms takeImg tOnly st st' e h with
    rfl | ⟨hm, hlt, hg, rfl⟩
  · exact hinv
  · obtain ⟨hseen, hnodup, hwin⟩ := hinv
    refine ⟨?_, ?_, ?_⟩
    · simp only [List.map_append, List.map_cons, List.map_nil]
      rw [hseen]
      rfl
    · simp only [List.map_append, List.map_cons, List.map_nil]
      rw [List.nodup_append]
      refine ⟨hnodup, List.nodup_singleton _, ?_⟩
      intro a ha hb
      simp only [List.mem_singleton] at hb
      subst hb
      rw [hseen] at hg
      exact hg ha
    · intro it hit
      rcases List.mem_append.mp hit with hold | hnew
      · exact hwin it hold
      · simp only [List.mem_singleton] at hnew
        subst hnew
        exact hlt

/-- The entry loop preserves the run-wide invariant. -/
theorem processEntryList_inv (ext : Ext) (cutoff : PyDateTime) (label : String)
    (terms : List String) (takeImg tOnly : Bool) :
    ∀ (es : List Entry) (st st' : EState),
      processEntryList ext cutoff label terms takeImg tOnly es st = .ok st' →
      StateInv cutoff st → StateInv cutoff st'
  | [], st, st', h, hinv => by
    rw [(Except.ok.inj h : st = st')] at hinv
    exact hinv
  | e :: rest, st, st', h, hinv => by
    unfold processEntryList at h
    split at h
    · cases h
    next st1 hstep =>
      exact processEntryList_inv ext cutoff label terms takeImg tOnly rest st1 st' h
        (processEntry_inv ext cutoff label terms takeImg tOnly st st1 e hstep hinv)

/-- The run-wide invariant lifted to `RunState`. -/
def RunInv (cutoff : PyDateTime) (st : RunState) : Prop :=
  StateInv cutoff (st.seen, st.collected)

/-- One source step preserves the invariant (also when it returns an error,
since the error state is the state reached so far). -/
theorem processSource_inv (ext : Ext) (cutoff : PyDateTime) (st st' : RunState)
    (src : SrcConfig) (err : Option RunError)
    (h : processSource ext cutoff st src = (st', err))
    (hinv : RunInv cutoff st) : RunInv cutoff st' := by
  unfold processSource at h
  dsimp only at h
  split at h
  · rw [(Prod.mk.inj h).1.symm]; exact hinv
  next url hurl =>
    split at h
    · rw [(Prod.mk.inj h).1.symm]; exact hinv
    next label hlabel =>
      split at h
      · rw [(Prod.mk.inj h).1.symm]; exact hinv
      next entries hfetch =>
        split at h
        · rw [(Prod.mk.inj h).1.symm]; exact hinv
        next seen' coll' hlist =>
          rw [(Prod.mk.inj h).1.symm]
          exact processEntryList_inv ext cutoff label (src.matchTerms.getD [])
            (src.take_image_enclosure.getD false) (src.title_only.getD false)
            entries (st.seen, st.collected) (seen', coll') hlist hinv

/-- The source loop preserves the invariant. -/
theorem processSources_inv (ext : Ext) (cutoff : PyDateTime) :
    ∀ (sources : List SrcConfig) (st st' : RunState) (err : Option RunError),
      processSources ext cutoff sources st = (st', err) →
      RunInv cutoff st → RunInv cutoff st'
  | [], st, st', err, h, hinv => by
    rw [(Prod.mk.inj h).1.symm]; exact hinv
  | src :: rest, st, st', err, h, hinv => by
    unfold processSources at h
    split at h
    next st1 err1 hstep =>
      rw [(Prod.mk.inj h).1.symm]
      exact processSource_inv ext cutoff st st1 src (some err1) hstep hinv
    next st1 hstep =>
      exact processSources_inv ext cutoff rest st1 st' err h
        (processSource_inv ext cutoff st st1 src none hstep hinv)

/-- Any state returned by the collection phase satisfies the invariant. -/
theorem runState_inv (ext : Ext) (nowTs windowDays : Int) (sources : List SrcConfig)
    (st : RunState) (err : Option RunError)
    (h : runResult ext nowTs windowDays sources = (st, err)) :
    RunInv (cutoffFor nowTs windowDays) st := by
  refine processSources_inv ext (cutoffFor nowTs windowDays) sources initState st err h ?_
  exact ⟨rfl, List.nodup_nil, fun it hit => absurd hit (List.not_mem_nil it)⟩

/-- A window comparison that returned `ok false` forces the left operand to be
timezone-aware and at or after the (aware) cutoff instant. -/
theorem pyLt_ok_false (a : PyDateTime) (c : Int)
    (h : pyLt a ⟨c, some 0⟩ = .ok false) :
    a.tz.isSome = true ∧ c ≤ a.ts := by
  unfold pyLt at h
  cases htz : a.tz with
  | none =>
    rw [htz] at h
    cases h
  | some o =>
    rw [htz] at h
    have := Except.ok.inj h
    simp only [decide_eq_false_iff_not, Int.not_lt] at this
    exact ⟨rfl, this⟩

/-- Membership in the final output comes from membership in the run
collection of a non-raising run. -/
theorem mem_finalItems (ext : Ext) (nowTs windowDays : Int) (maxItems : Nat)
    (sources : List SrcConfig) (out : List Item) (it : Item)
    (h : finalItems ext nowTs windowDays maxItems sources = some out)
    (hm : it ∈ out) :
    ∃ st, runResult ext nowTs windowDays sources = (st, none) ∧ it ∈ st.collected := by
  unfold finalItems collectedOf at h
  cases hr : runResult ext nowTs windowDays sources with
  | mk st err =>
    rw [hr] at h
    cases err with
    | some e => cases h
    | none =>
      refine ⟨st, rfl, ?_⟩
      have hout : out = truncateItems maxItems (sortDesc st.collected) :=
        (Option.some.inj h).symm
      rw [hout] at hm
      have hms : it ∈ sortDesc st.collected := by
        unfold truncateItems at hm
        split at hm
        · exact List.take_subset _ _ hm
        · exact hm
      unfold sortDesc at hms
      exact List.mem_mergeSort.mp hms

/-! Concrete runs used by witnesses and counterexamples. -/

/-- A single entry matched by the keyword `culture`, dated via the
pre-decomposed field. -/
def eS : Entry := { title := some "Culture Today", id := some "s1", published_parsed := some 100 }

/-- Externals for the single-entry run: no textual date parses, one feed. -/
def extS : Ext := ⟨fun _ => none, sha40, fun _ => .ok [eS]⟩

/-- The single-source configuration of the single-entry run. -/
def srcS : SrcConfig := { url := some "hs", label := some "LS", matchTerms := some ["culture"] }

/-- The item the single-entry run collects. -/
def itemS : Item := ⟨"s1", "Culture Today", "", "", ⟨100, some 0⟩, "LS", none⟩

/-- The single-entry run collects exactly `itemS`. -/
theorem collectedS_eval : collectedOf extS 1000 1 [srcS] = some [itemS] := rfl

/-- The single-entry run outputs exactly `itemS`. -/
theorem finalS_eval : finalItems extS 1000 1 5 [srcS] = some [itemS] := by
  unfold finalItems
  rw [collectedS_eval]
  unfold sortDesc truncateItems
  simp

/-- C7: the recency cutoff is the run-start instant minus the window in days;
an entry whose publish timestamp compares strictly earlier than the cutoff is
dropped with the state unchanged; and every output item's timestamp is at or
after the cutoff. -/
theorem window_cutoff_bound (ext : Ext) (nowTs windowDays : Int) (maxItems : Nat)
    (sources : List SrcConfig) (out : List Item)
    (h : finalItems ext nowTs windowDays maxItems sources = some out) :
    cutoffFor nowTs windowDays = ⟨nowTs - windowDays * 86400, some 0⟩ ∧
    (∀ (e : Entry) (label : String) (terms : List String) (takeImg tOnly : Bool)
       (st : EState),
      pyLt (entryDT ext.pd e) (cutoffFor nowTs windowDays) = .ok true →
      processEntry ext (cutoffFor nowTs windowDays) label terms takeImg tOnly st e =
        .ok st) ∧
    ∀ it ∈ out, (cutoffFor nowTs windowDays).ts ≤ it.pubDate.ts := by
  refine ⟨rfl, ?_, fun it hit => ?_⟩
  · intro e label terms takeImg tOnly st hlt
    unfold processEntry
    by_cases hm : matchesEntry e terms tOnly = false
    · rw [if_pos hm]
    · rw [if_neg hm, hlt]
  · obtain ⟨st, hr, hmem⟩ := mem_finalItems ext nowTs windowDays maxItems sources out it h hit
    have hinv := runState_inv ext nowTs windowDays sources st none hr
    exact (pyLt_ok_false it.pubDate (nowTs - windowDays * 86400) (hinv.2.2 it hmem)).2

/-- Witness for C7 on the single-entry run. -/
theorem window_cutoff_bound_witness : (cutoffFor 1000 1).ts ≤ itemS.pubDate.ts :=
  (window_cutoff_bound extS 1000 1 5 [srcS] [itemS] finalS_eval).2.2 itemS
    (List.mem_singleton.mpr rfl)

/-- C1 (amended): every item placed in the run collection of a completed run
has a timezone-aware timestamp (a naive one would have raised at the window
comparison before placement), and an entry with no derivable date receives
the epoch sentinel `1970-01-01T00:00:00Z` rather than raising. -/
theorem collection_timestamps_aware_epoch_sentinel (ext : Ext) (nowTs windowDays : Int)
    (sources : List SrcConfig) :
    (∀ st err, runResult ext nowTs windowDays sources = (st, err) →
      ∀ it ∈ st.collected, it.pubDate.tz.isSome = true) ∧
    epochDT = ⟨0, some 0⟩ ∧
    (∀ e, pick_date ext.pd e = none → entryDT ext.pd e = epochDT) ∧
    (∀ (e : Entry) (label : String) (terms : List String) (takeImg tOnly : Bool)
       (st : EState),
      pick_date ext.pd e = none →
      ∃ st', processEntry ext (cutoffFor nowTs windowDays) label terms takeImg tOnly st e =
        .ok st') := by
  refine ⟨?_, rfl, ?_, ?_⟩
  · intro st err hr it hmem
    have hinv := runState_inv ext nowTs windowDays sources st err hr
    exact (pyLt_ok_false it.pubDate (nowTs - windowDays * 86400) (hinv.2.2 it hmem)).1
  · intro e hnone
    unfold entryDT
    rw [hnone]
    rfl
  · intro e label terms takeImg tOnly st hnone
    have hdt : entryDT ext.pd e = epochDT := by unfold entryDT; rw [hnone]; rfl
    unfold processEntry
    rw [hdt]
    by_cases hm : matchesEntry e terms tOnly = false
    · exact ⟨st, by rw [if_pos hm]⟩
    · rw [if_neg hm]
      have hlt : pyLt epochDT (cutoffFor nowTs windowDays) =
          .ok (decide ((0 : Int) < nowTs - windowDays * 86400)) := rfl
      rw [hlt]
      cases hb : decide ((0 : Int) < nowTs - windowDays * 86400) with
      | true => exact ⟨st, rfl⟩
      | false =>
        by_cases hg : guid_for ext.sha1Hex e ∈ st.1
        · exact ⟨st, by rw [if_pos hg]⟩
        · exact ⟨(st.1 ++ [guid_for ext.sha1Hex e], st.2 ++ [mkItem ext label takeImg e]),
            by rw [if_neg hg]⟩

/-- Witness for C1 on the single-entry run. -/
theorem collection_timestamps_aware_witness : itemS.pubDate.tz.isSome = true :=
  (collection_timestamps_aware_epoch_sentinel extS 1000 1 [srcS]).1
    ⟨["s1"], [itemS], ["hs"]⟩ none rfl itemS (List.mem_singleton.mpr rfl)

/-- A date parser returning an aware but non-UTC datetime (offset +120
minutes), as the flexible parser does for an input such as
`2024-05-01T10:00:00+02:00`. -/
def pdCex : String → Option PyDateTime := fun _ => some ⟨100, some 120⟩

/-- An entry whose textual `published` field parses to the non-UTC datetime. -/
def eCex : Entry := { title := some "t", id := some "gid-1", published := some "x" }

/-- Externals for the non-UTC-timestamp run. -/
def extCex : Ext := ⟨pdCex, sha40, fun _ => .ok [eCex]⟩

/-- A source matching everything (its term list contains the empty string). -/
def srcCex : SrcConfig := { url := some "u", label := some "Lab", matchTerms := some [""] }

/-- Counterexample to C1 as stated: a run places an item in the collection
whose publish timestamp is timezone-aware but not UTC (offset +120 minutes). -/
theorem collection_timestamp_not_utc_cex :
    ((collectedOf extCex 0 10 [srcCex]).getD []).map (fun it => it.pubDate.tz) =
      [some 120] ∧
    (some (120 : Int)) ≠ some (0 : Int) := by
  refine ⟨rfl, by decide⟩

/-- The source loop distributes over list append, stopping at the first
error. -/
theorem processSources_append (ext : Ext) (cutoff : PyDateTime) :
    ∀ (l₁ l₂ : List SrcConfig) (st : RunState),
      processSources ext cutoff (l₁ ++ l₂) st =
        match processSources ext cutoff l₁ st with
        | (st', none) => processSources ext cutoff l₂ st'
        | (st', some err) => (st', some err)
  | [], l₂, st => rfl
  | src :: rest, l₂, st => by
    simp only [List.cons_append, processSources]
    cases hstep : processSource ext cutoff st src with
    | mk st' err =>
      cases err with
      | none => exact processSources_append ext cutoff rest l₂ st'
      | some e => rfl

/-- C2 (amended): a source dict missing `url` or `label` aborts the run with
an uncaught `KeyError` exactly when that source is reached — before that
source is fetched, but after every earlier source has been processed (and
hence fetched when reachable); the final state is the state after the
preceding sources, so the failing source adds nothing to the fetch trace. -/
theorem missing_source_key_aborts_at_that_source (ext : Ext) (cutoff : PyDateTime)
    (pre : List SrcConfig) (bad : SrcConfig) (rest : List SrcConfig)
    (st₀ st₁ : RunState)
    (hpre : processSources ext cutoff pre st₀ = (st₁, none))
    (hbad : bad.url = none ∨ bad.label = none) :
    processSource ext cutoff st₁ bad = (st₁, some RunError.keyError) ∧
    processSources ext cutoff (pre ++ bad :: rest) st₀ =
      (st₁, some RunError.keyError) := by
  have hb : processSource ext cutoff st₁ bad = (st₁, some RunError.keyError) := by
    unfold processSource
    rcases hbad with hu | hl
    · rw [hu]
    · cases hu : bad.url with
      | none => rfl
      | some u => rw [hl]
  refine ⟨hb, ?_⟩
  rw [processSources_append ext cutoff pre (bad :: rest) st₀, hpre]
  show processSources ext cutoff (bad :: rest) st₁ = (st₁, some RunError.keyError)
  unfold processSources
  rw [hb]

/-- A valid source whose feed yields no entries. -/
def srcA : SrcConfig := { url := some "http://a", label := some "A" }

/-- A source dict missing the required `url` key. -/
def srcBad : SrcConfig := { label := some "B" }

/-- Externals for the configuration-error run: every fetch parses to an empty
feed. -/
def extC2 : Ext := ⟨fun _ => none, sha40, fun _ => .ok []⟩

/-- Counterexample to C2 as stated: with a valid source configured before the
invalid one, the run does fail, but the first source has already been fetched
— the fetch trace is nonempty, contradicting `no source is fetched at all`. -/
theorem earlier_source_fetched_before_config_error_cex :
    runResult extC2 0 7 [srcA, srcBad] =
      (⟨[], [], ["http://a"]⟩, some RunError.keyError) ∧
    (["http://a"] : List String) ≠ [] := by
  refine ⟨rfl, by decide⟩

/-- Witness for C2 on the two-source run: the abort happens exactly at the
invalid source, adding nothing beyond the first source's fetch. -/
theorem missing_source_key_aborts_witness :
    processSource extC2 (cutoffFor 0 7) ⟨[], [], ["http://a"]⟩ srcBad =
      (⟨[], [], ["http://a"]⟩, some RunError.keyError) ∧
    processSources extC2 (cutoffFor 0 7) ([srcA] ++ srcBad :: []) initState =
      (⟨[], [], ["http://a"]⟩, some RunError.keyError) :=
  missing_source_key_aborts_at_that_source extC2 (cutoffFor 0 7) [srcA] srcBad []
    initState ⟨[], [], ["http://a"]⟩ rfl (Or.inl rfl)

/-- C3: no two output items share a guid; the dedup set mirrors the collected
guids in processing order; and at each entry step a passing entry whose guid
is new is appended while one whose guid was already seen is dropped with the
state unchanged. -/
theorem output_guids_nodup_first_wins (ext : Ext) (nowTs windowDays : Int)
    (maxItems : Nat) (sources : List SrcConfig) (out : List Item)
    (h : finalItems ext nowTs windowDays maxItems sources = some out) :
    (out.map (fun it => it.guid)).Nodup ∧
    (∀ st err, runResult ext nowTs windowDays sources = (st, err) →
      st.seen = st.collected.map (fun it => it.guid)) ∧
    (∀ (cutoff : PyDateTime) (label : String) (terms : List String)
       (takeImg tOnly : Bool) (st : EState) (e : Entry),
      matchesEntry e terms tOnly = true →
      pyLt (entryDT ext.pd e) cutoff = .ok false →
      ((guid_for ext.sha1Hex e ∈ st.1 →
         processEntry ext cutoff label terms takeImg tOnly st e = .ok st) ∧
       (guid_for ext.sha1Hex e ∉ st.1 →
         processEntry ext cutoff label terms takeImg tOnly st e =
           .ok (st.1 ++ [guid_for ext.sha1Hex e],
                st.2 ++ [mkItem ext label takeImg e])))) := by
  refine ⟨?_, ?_, ?_⟩
  · unfold finalItems collectedOf at h
    cases hr : runResult ext nowTs windowDays sources with
    | mk st err =>
      rw [hr] at h
      cases err with
      | some e => cases h
      | none =>
        have hout : out = truncateItems maxItems (sortDesc st.collected) :=
          (Option.some.inj h).symm
        have hinv := runState_inv ext nowTs windowDays sources st none hr
        have hnodup : (st.collected.map (fun it => it.guid)).Nodup := hinv.2.1
        have hperm : List.Perm (sortDesc st.collected) st.collected :=
          List.mergeSort_perm st.collected _
        have hnodup2 : ((sortDesc st.collected).map (fun it => it.guid)).Nodup :=
          ((hperm.map (fun it => it.guid)).nodup_iff).mpr hnodup
        rw [hout]
        unfold truncateItems
        split
        · rw [List.map_take]
          exact hnodup2.sublist (List.take_sublist _ _)
        · exact hnodup2
  · intro st err hr
    exact (runState_inv ext nowTs windowDays sources st err hr).1
  · intro cutoff label terms takeImg tOnly st e hm hwin
    constructor
    · intro hg
      unfold processEntry
      rw [if_neg (by simp [hm]), hwin]
      show (if guid_for ext.sha1Hex e ∈ st.1 then Except.ok st else _) = Except.ok st
      rw [if_pos hg]
    · intro hg
      unfold processEntry
      rw [if_neg (by simp [hm]), hwin]
      show (if guid_for ext.sha1Hex e ∈ st.1 then Except.ok st else _) = _
      rw [if_neg hg]

/-- Witness for C3 on the single-entry run. -/
theorem output_guids_nodup_witness : ([itemS].map (fun it => it.guid)).Nodup :=
  (output_guids_nodup_first_wins extS 1000 1 5 [srcS] [itemS] finalS_eval).1

/-- Transitivity of the descending comparison used by the sort. -/
theorem itemLE_trans (a b c : Item)
    (h1 : decide (b.pubDate.ts ≤ a.pubDate.ts) = true)
    (h2 : decide (c.pubDate.ts ≤ b.pubDate.ts) = true) :
    decide (c.pubDate.ts ≤ a.pubDate.ts) = true := by
  simp only [decide_eq_true_eq] at h1 h2 ⊢
  omega

/-- Totality of the descending comparison used by the sort. -/
theorem itemLE_total (a b : Item) :
    (decide (b.pubDate.ts ≤ a.pubDate.ts) || decide (a.pubDate.ts ≤ b.pubDate.ts)) = true := by
  simp only [Bool.or_eq_true, decide_eq_true_eq]
  omega

/-- C6: the output is the run collection sorted by descending publish instant
(a permutation, pairwise descending, ties kept in encounter order — the
key-equal items filter out of the sort unchanged), then truncated to the
configured maximum, where a maximum of zero disables truncation. -/
theorem output_sorted_desc_stable_truncated (ext : Ext) (nowTs windowDays : Int)
    (maxItems : Nat) (sources : List SrcConfig) (c : List Item)
    (h : collectedOf ext nowTs windowDays sources = some c) :
    finalItems ext nowTs windowDays maxItems sources =
      some (truncateItems maxItems (sortDesc c)) ∧
    (sortDesc c).Pairwise (fun a b => b.pubDate.ts ≤ a.pubDate.ts) ∧
    List.Perm (sortDesc c) c ∧
    (∀ k : Int, (sortDesc c).filter (fun it => decide (it.pubDate.ts = k)) =
      c.filter (fun it => decide (it.pubDate.ts = k))) ∧
    (maxItems ≠ 0 → truncateItems maxItems (sortDesc c) = (sortDesc c).take maxItems ∧
      (truncateItems maxItems (sortDesc c)).length ≤ maxItems) ∧
    (maxItems = 0 → truncateItems maxItems (sortDesc c) = sortDesc c) := by
  refine ⟨?_, ?_, ?_, ?_, ?_, ?_⟩
  · unfold finalItems
    rw [h]
    rfl
  · exact (List.sorted_mergeSort itemLE_trans itemLE_total c).imp
      (fun hab => of_decide_eq_true hab)
  · exact List.mergeSort_perm c _
  · intro k
    have hpw : (c.filter (fun it => decide (it.pubDate.ts = k))).Pairwise
        (fun a b => decide (b.pubDate.ts ≤ a.pubDate.ts) = true) := by
      apply List.pairwise_of_forall_mem_list
      intro a ha b hb
      have ha2 := (List.mem_filter.mp ha).2
      have hb2 := (List.mem_filter.mp hb).2
      simp only [decide_eq_true_eq] at ha2 hb2 ⊢
      omega
    have hsub : List.Sublist (c.filter (fun it => decide (it.pubDate.ts = k)))
        (sortDesc c) :=
      List.sublist_mergeSort itemLE_trans itemLE_total hpw (List.filter_sublist c)
    have hpermf : List.Perm
        ((sortDesc c).filter (fun it => decide (it.pubDate.ts = k)))
        (c.filter (fun it => decide (it.pubDate.ts = k))) :=
      (List.mergeSort_perm c _).filter _
    have hsub2 : List.Sublist (c.filter (fun it => decide (it.pubDate.ts = k)))
        ((sortDesc c).filter (fun it => decide (it.pubDate.ts = k))) := by
      have h2 := hsub.filter (fun it => decide (it.pubDate.ts = k))
      simpa [List.filter_filter] using h2
    exact (hsub2.eq_of_length hpermf.symm.length_eq).symm
  · intro hm
    unfold truncateItems
    rw [if_pos hm]
    exact ⟨rfl, List.length_take_le maxItems _⟩
  · intro hm
    unfold truncateItems
    rw [if_neg (by simp [hm])]

/-- Two entries matched by the keyword `culture`, dated via the pre-decomposed
fields, younger one second. -/
def eW1 : Entry := { title := some "Culture One", id := some "a1", published_parsed := some 100 }

/-- The second, younger entry of the two-entry run. -/
def eW2 : Entry := { title := some "Culture Two", id := some "a2", published_parsed := some 200 }

/-- Externals for the two-entry run. -/
def extW : Ext := ⟨fun _ => none, sha40, fun _ => .ok [eW1, eW2]⟩

/-- The single source of the two-entry run. -/
def srcW : SrcConfig := { url := some "hw", label := some "LW", matchTerms := some ["culture"] }

/-- The collection the two-entry run produces, in encounter order. -/
def cW : List Item :=
  [⟨"a1", "Culture One", "", "", ⟨100, some 0⟩, "LW", none⟩,
   ⟨"a2", "Culture Two", "", "", ⟨200, some 0⟩, "LW", none⟩]

/-- The two-entry run collects exactly `cW`. -/
theorem collectedW_eval : collectedOf extW 1000 1 [srcW] = some cW := rfl

/-- Witness for C6 on the two-entry run with maximum 1. -/
theorem output_sorted_witness :
    finalItems extW 1000 1 1 [srcW] = some (truncateItems 1 (sortDesc cW)) :=
  (output_sorted_desc_stable_truncated extW 1000 1 1 [srcW] cW collectedW_eval).1

end MergeFilter
